import Mathlib

/-!
Shallow embedding of the `go_torrent_mpv` streaming gateway, translated from the
Go sources, together with theorems settling the specification claims.

Conventions used throughout:
* Go strings are Lean `String`s; Go's byte-wise string comparison coincides with
  code-point-wise lexicographic comparison because UTF-8 is order preserving, and
  is modelled by `strLtGo` below.
* `int64` values (file lengths) are `Int`; ports and depths are `Nat`.
* External collaborators (the OS interface-address table, `mime.TypeByExtension`,
  `http.Get`, `metainfo.Load`, the torrent engine's session table) enter as
  explicit parameters, so every definition is a pure, executable function.
-/

namespace GoTorrentMpv

/-! ## Identifier classifier (`torrentclient.AddTorrent`) -/

/-- The branch chosen by the `switch` in `AddTorrent`
(`src/unnamed/part_001` lines 122–154; the same switch appears in `src/main.go`). -/
inductive AddBranch where
  | fromURL
  | fromFile
  | fromInfoHash
  | fromMagnet
deriving DecidableEq, Repr

/-- `strings`-level model of Go `strings.HasPrefix p s` (note the argument order:
the pattern comes first here). -/
def strHasPre (p s : String) : Bool := p.toList.isPrefixOf s.toList

/-- Model of Go `strings.HasSuffix`. -/
def strHasSuf (p s : String) : Bool := p.toList.isSuffixOf s.toList

/-- Semantics of `regexp.MatchString("^https?", id)`: with default flags the
pattern matches exactly when the input starts with `"http"` (the final `s` is
optional, so it adds nothing to the condition). -/
def matchHttp (s : String) : Bool := strHasPre "http" s

/-- Semantics of `regexp.MatchString("\\.torrent$", id)`: the input ends with
`".torrent"`. -/
def matchTorrent (s : String) : Bool := strHasSuf ".torrent" s

/-- One character of the class `[0-9a-fA-F]`. -/
def isHexChar (c : Char) : Bool :=
  (('0' ≤ c) && (c ≤ '9')) || (('a' ≤ c) && (c ≤ 'f')) || (('A' ≤ c) && (c ≤ 'F'))

/-- Semantics of `regexp.MatchString("^[0-9a-fA-F]{40}$", id)`: with Go's default
flags `^`/`$` anchor to the start/end of the whole text, so the input is exactly
forty hexadecimal characters. -/
def matchInfoHash (s : String) : Bool :=
  s.toList.length == 40 && s.toList.all isHexChar

/-- Semantics of `regexp.MatchString("^magnet:", id)`. -/
def matchMagnet (s : String) : Bool := strHasPre "magnet:" s

/-- The guard conditions of the `switch` in `AddTorrent`, tried in source order. -/
def classify (id : String) : Option AddBranch :=
  if matchHttp id then some .fromURL
  else if matchTorrent id then some .fromFile
  else if matchInfoHash id then some .fromInfoHash
  else if matchMagnet id then some .fromMagnet
  else none

/-- The engine mutation a branch of `AddTorrent` performs. -/
inductive EngineCall where
  | addTorrentMeta (metaInfo : String)
  | addTorrentFromFile (path : String)
  | addTorrentInfoHash (ihHex : String)
  | addMagnet (uri : String)
deriving DecidableEq, Repr

/-- The errors `AddTorrent` can return.  `invalidTorrentId` is the
`errors.New("invalid torrent id")` of the `default` branch. -/
inductive AddError where
  | remoteFetch (e : String)
  | metaLoad (e : String)
  | invalidTorrentId
deriving DecidableEq, Repr

/-- `AddTorrent` from `src/unnamed/part_001` lines 122–154 (identical in
`src/main.go`).  `fetch` models `http.Get` plus reading the response body and
`parseMeta` models `metainfo.Load`; the result is the engine call the selected
branch performs, or the error handed back to the caller.  An error result means
no torrent is added to the engine. -/
def AddTorrent (fetch : String → Except String String)
    (parseMeta : String → Except String String) (id : String) :
    Except AddError EngineCall :=
  match classify id with
  | some .fromURL =>
    match fetch id with
    | .error e => .error (.remoteFetch e)
    | .ok body =>
      match parseMeta body with
      | .error e => .error (.metaLoad e)
      | .ok mi => .ok (.addTorrentMeta mi)
  | some .fromFile => .ok (.addTorrentFromFile id)
  | some .fromInfoHash => .ok (.addTorrentInfoHash id)
  | some .fromMagnet => .ok (.addMagnet id)
  | none => .error .invalidTorrentId

/-- C1: for every input string the classifier in `AddTorrent` selects exactly one
branch by trying, in fixed priority order, HTTP(S) URL, then `.torrent` path,
then bare 40-hex-character fingerprint, then magnet URI; an input matching none
of the four shapes yields exactly the `invalid torrent id` error, in which case
no engine call is made (so no torrent is added). -/
theorem addTorrent_classifies_in_priority_order
    (fetch parseMeta : String → Except String String) (id : String) :
    (matchHttp id = true → classify id = some .fromURL) ∧
    (matchHttp id = false → matchTorrent id = true → classify id = some .fromFile) ∧
    (matchHttp id = false → matchTorrent id = false → matchInfoHash id = true →
      classify id = some .fromInfoHash) ∧
    (matchHttp id = false → matchTorrent id = false → matchInfoHash id = false →
      matchMagnet id = true → classify id = some .fromMagnet) ∧
    (classify id = none ↔
      matchHttp id = false ∧ matchTorrent id = false ∧ matchInfoHash id = false ∧
        matchMagnet id = false) ∧
    (AddTorrent fetch parseMeta id = .error .invalidTorrentId ↔ classify id = none) := by
  refine ⟨fun h => by simp [classify, h],
          fun h1 h2 => by simp [classify, h1, h2],
          fun h1 h2 h3 => by simp [classify, h1, h2, h3],
          fun h1 h2 h3 h4 => by simp [classify, h1, h2, h3, h4],
          by unfold classify; split_ifs with h1 h2 h3 h4 <;> simp_all,
          ?_⟩
  unfold AddTorrent
  cases hc : classify id with
  | none => simp
  | some b =>
    cases b <;> simp [hc]
    cases hf : fetch id with
    | error e => simp
    | ok body => cases hp : parseMeta body <;> simp [hp]

/-- Witness for C1: the magnet branch fires for a magnet URI (which matches none
of the higher-priority shapes), at a concrete input. -/
theorem addTorrent_classifies_in_priority_order_witness :
    classify "magnet:?xt=urn:btih:c0ffee" = some .fromMagnet := by
  have h := addTorrent_classifies_in_priority_order (fun s => .ok s) (fun s => .ok s)
    "magnet:?xt=urn:btih:c0ffee"
  exact h.2.2.2.1 (by decide) (by decide) (by decide) (by decide)

/-! ## Go string comparison

Go compares strings byte-wise; UTF-8 is order preserving, so this coincides with
lexicographic comparison of the code-point sequences, which `strLtGo` computes. -/

/-- Go's `s1 < s2` on the underlying character sequences. -/
def strLtGo : List Char → List Char → Bool
  | _, [] => false
  | [], _ :: _ => true
  | a :: as, b :: bs => if a = b then strLtGo as bs else decide (a.toNat < b.toNat)

theorem charToNat_inj {a b : Char} (h : a.toNat = b.toNat) : a = b :=
  Char.eq_of_val_eq (UInt32.ext h)

theorem strLtGo_asymm : ∀ {l₁ l₂ : List Char},
    strLtGo l₁ l₂ = true → strLtGo l₂ l₁ = false
  | [], [], h => by simp [strLtGo] at h
  | [], _ :: _, _ => rfl
  | _ :: _, [], h => by simp [strLtGo] at h
  | a :: as, b :: bs, h => by
    by_cases hab : a = b
    · subst hab
      simp only [strLtGo, if_pos rfl] at h ⊢
      exact strLtGo_asymm h
    · have hba : b ≠ a := fun e => hab e.symm
      simp only [strLtGo, if_neg hab, decide_eq_true_eq] at h
      simp only [strLtGo, if_neg hba, decide_eq_false_iff_not]
      exact Nat.lt_asymm h

theorem strLtGo_trans : ∀ {l₁ l₂ l₃ : List Char},
    strLtGo l₁ l₂ = true → strLtGo l₂ l₃ = true → strLtGo l₁ l₃ = true
  | _, _, [], _, h2 => by simp [strLtGo] at h2
  | _, [], _ :: _, h1, _ => by simp [strLtGo] at h1
  | [], _ :: _, _ :: _, _, _ => rfl
  | a :: as, b :: bs, c :: cs, h1, h2 => by
    by_cases hab : a = b <;> by_cases hbc : b = c
    · subst hab; subst hbc
      simp only [strLtGo, if_pos rfl] at h1 h2 ⊢
      exact strLtGo_trans h1 h2
    · subst hab
      simpa [strLtGo, hbc] using h2
    · subst hbc
      simpa [strLtGo, hab] using h1
    · simp only [strLtGo, if_neg hab, decide_eq_true_eq] at h1
      simp only [strLtGo, if_neg hbc, decide_eq_true_eq] at h2
      have hac : a.toNat < c.toNat := Nat.lt_trans h1 h2
      have hne : a ≠ c := fun e => Nat.lt_irrefl _ (e ▸ Nat.lt_trans h1 h2)
      simp [strLtGo, if_neg hne, hac]

theorem strLtGo_eq_of_not_lt : ∀ {l₁ l₂ : List Char},
    strLtGo l₁ l₂ = false → strLtGo l₂ l₁ = false → l₁ = l₂
  | [], [], _, _ => rfl
  | [], _ :: _, h1, _ => by simp [strLtGo] at h1
  | _ :: _, [], _, h2 => by simp [strLtGo] at h2
  | a :: as, b :: bs, h1, h2 => by
    by_cases hab : a = b
    · subst hab
      simp only [strLtGo, if_pos rfl] at h1 h2
      exact congrArg (a :: ·) (strLtGo_eq_of_not_lt h1 h2)
    · have hba : b ≠ a := fun e => hab e.symm
      simp only [strLtGo, if_neg hab, decide_eq_false_iff_not, Nat.not_lt] at h1
      simp only [strLtGo, if_neg hba, decide_eq_false_iff_not, Nat.not_lt] at h2
      exact absurd (charToNat_inj (Nat.le_antisymm h2 h1)) hab

/-! ## Path helpers (`path/filepath` on the slash-separated display paths) -/

/-- `filepath.Base` for the engine's display paths, which always use `/`
separators: the substring after the last slash. -/
def baseName (p : String) : String :=
  String.mk ((p.toList.reverse.takeWhile (fun c => c ≠ '/')).reverse)

/-- `filepath.Ext`: the suffix starting at the final dot of the final path
element, or the empty string if that element has no dot. -/
def extOf (p : String) : String :=
  let r := (baseName p).toList.reverse
  let pre := r.takeWhile (fun c => c ≠ '.')
  if pre.length = r.length then "" else String.mk ('.' :: pre.reverse)

/-- `strings.Split(p, "/")`, realised on the character list. -/
def splitSlash : List Char → List (List Char)
  | [] => [[]]
  | c :: cs =>
    let rest := splitSlash cs
    if c = '/' then [] :: rest
    else
      match rest with
      | [] => [[c]]
      | seg :: segs => (c :: seg) :: segs

/-- `len(strings.Split(p, "/"))`, the nesting depth stored by `WrapFiles`. -/
def depthOf (p : String) : Nat := (splitSlash p.toList).length

theorem baseName_toList (p : String) :
    (baseName p).toList = (p.toList.reverse.takeWhile (fun c => c ≠ '/')).reverse := rfl

theorem baseName_idem (p : String) : baseName (baseName p) = baseName p := by
  refine String.toList_inj.mp ?_
  simp only [baseName_toList, List.reverse_reverse, List.takeWhile_idem]

theorem extOf_baseName (p : String) : extOf (baseName p) = extOf p := by
  simp only [extOf, baseName_idem]

/-! ## Local address resolution -/

/-- A dotted-quad IPv4 address (`net.IP.To4` result); each octet is below 256 in
any real state, but nothing below depends on that bound. -/
structure IPv4 where
  o0 : Nat
  o1 : Nat
  o2 : Nat
  o3 : Nat
deriving DecidableEq, Repr

/-- The dotted-quad rendering `fmt.Sprintf` applies to a 4-byte `net.IP`. -/
def IPv4.render (ip : IPv4) : String :=
  toString ip.o0 ++ "." ++ toString ip.o1 ++ "." ++ toString ip.o2 ++ "." ++ toString ip.o3

/-- One entry of `net.InterfaceAddrs()` (or `iface.Addrs()`): whether the
`*net.IPNet` type assertion succeeds, whether the IP is loopback, and the
`To4()` view when the address is IPv4. -/
structure IfaceAddr where
  isIPNet : Bool
  loopback : Bool
  to4 : Option IPv4
deriving DecidableEq, Repr

/-- `GetLocalIPs` (`src/unnamed/part_002` lines 42–59; identical in
`src/main.go`): keep the `To4` views of the non-loopback `*net.IPNet` entries,
in order. -/
def GetLocalIPs : List IfaceAddr → List IPv4
  | [] => []
  | addr :: rest =>
    if !addr.isIPNet || addr.loopback then GetLocalIPs rest
    else
      match addr.to4 with
      | some ip => ip :: GetLocalIPs rest
      | none => GetLocalIPs rest

/-- The address-scanning loop of `GetLocalIP` (`src/unnamed/part_001` lines
339–351): `_localIP` starts out nil (the accumulator), every non-loopback IPv4
candidate overwrites it, and the loop breaks at the first candidate whose first
octet is 192.  The surrounding default-route lookup supplies `addrs`. -/
def scanLocalIP : List IfaceAddr → Option IPv4 → Option IPv4
  | [], acc => acc
  | addr :: rest, acc =>
    if !addr.isIPNet || addr.loopback then scanLocalIP rest acc
    else
      match addr.to4 with
      | none => scanLocalIP rest acc
      | some ip => if ip.o0 = 192 then some ip else scanLocalIP rest (some ip)

/-- `GetLocalIP` restricted to its candidate scan (`src/unnamed/part_001` lines
312–354). -/
def GetLocalIP (addrs : List IfaceAddr) : Option IPv4 := scanLocalIP addrs none

theorem scanLocalIP_eq (addrs : List IfaceAddr) :
    ∀ acc : Option IPv4,
      scanLocalIP addrs acc =
        match (GetLocalIPs addrs).find? (fun ip => ip.o0 == 192) with
        | some ip => some ip
        | none =>
          match (GetLocalIPs addrs).getLast? with
          | some ip => some ip
          | none => acc := by
  induction addrs with
  | nil => intro acc; rfl
  | cons addr rest ih =>
    intro acc
    cases hskip : (!addr.isIPNet || addr.loopback) with
    | true =>
      rw [show scanLocalIP (addr :: rest) acc = scanLocalIP rest acc from by
            simp [scanLocalIP, hskip],
          show GetLocalIPs (addr :: rest) = GetLocalIPs rest from by
            simp [GetLocalIPs, hskip]]
      exact ih acc
    | false =>
      cases h4 : addr.to4 with
      | none =>
        rw [show scanLocalIP (addr :: rest) acc = scanLocalIP rest acc from by
              simp [scanLocalIP, hskip, h4],
            show GetLocalIPs (addr :: rest) = GetLocalIPs rest from by
              simp [GetLocalIPs, hskip, h4]]
        exact ih acc
      | some ip =>
        rw [show GetLocalIPs (addr :: rest) = ip :: GetLocalIPs rest from by
              simp [GetLocalIPs, hskip, h4]]
        by_cases h192 : ip.o0 = 192
        · rw [show scanLocalIP (addr :: rest) acc = some ip from by
                simp [scanLocalIP, hskip, h4, h192],
              List.find?_cons_of_pos _ (by simpa using h192)]
        · rw [show scanLocalIP (addr :: rest) acc = scanLocalIP rest (some ip) from by
                simp [scanLocalIP, hskip, h4, h192],
              ih (some ip),
              List.find?_cons_of_neg _ (by simpa using h192)]
          cases hfind : (GetLocalIPs rest).find? (fun i => i.o0 == 192) with
          | some j => rfl
          | none =>
            cases hg : GetLocalIPs rest with
            | nil => simp
            | cons x xs =>
              rw [List.getLast?_cons_cons]
              cases hlast : (x :: xs).getLast? with
              | some j => rfl
              | none => simp [List.getLast?_cons_cons] at hlast

/-- C5, counterexample: the claim says that with no 192-prefixed candidate the
resolver returns the FIRST non-loopback IPv4 candidate.  With the interface
addresses `[10.0.0.5, 172.16.0.1]` the first candidate is `10.0.0.5`, but the
scanning loop of `GetLocalIP` overwrites `_localIP` on every candidate and so
returns the LAST one, `172.16.0.1`. -/
theorem getLocalIP_returns_last_not_first :
    GetLocalIPs [⟨true, false, some ⟨10, 0, 0, 5⟩⟩, ⟨true, false, some ⟨172, 16, 0, 1⟩⟩]
        = [⟨10, 0, 0, 5⟩, ⟨172, 16, 0, 1⟩] ∧
    GetLocalIP [⟨true, false, some ⟨10, 0, 0, 5⟩⟩, ⟨true, false, some ⟨172, 16, 0, 1⟩⟩]
        = some ⟨172, 16, 0, 1⟩ := by
  exact ⟨rfl, rfl⟩

/-- C5, amended: among the non-loopback IPv4 candidates (`GetLocalIPs` computes
exactly that candidate list), `GetLocalIP` returns the first address whose first
octet is 192 when one exists, and otherwise the LAST candidate (not the first);
with no candidate at all it returns `none`. -/
theorem getLocalIP_prefers_192_else_last (addrs : List IfaceAddr) :
    ((GetLocalIPs addrs).find? (fun ip => ip.o0 == 192) ≠ none →
      GetLocalIP addrs = (GetLocalIPs addrs).find? (fun ip => ip.o0 == 192)) ∧
    ((GetLocalIPs addrs).find? (fun ip => ip.o0 == 192) = none →
      GetLocalIPs addrs ≠ [] →
      GetLocalIP addrs = (GetLocalIPs addrs).getLast?) ∧
    (GetLocalIPs addrs = [] → GetLocalIP addrs = none) := by
  refine ⟨?_, ?_, ?_⟩
  · intro hfind
    rw [GetLocalIP, scanLocalIP_eq]
    cases h : (GetLocalIPs addrs).find? (fun ip => ip.o0 == 192) with
    | some j => rfl
    | none => exact absurd h hfind
  · intro hfind hne
    rw [GetLocalIP, scanLocalIP_eq, hfind]
    cases hg : (GetLocalIPs addrs).getLast? with
    | some j => rfl
    | none => exact absurd (List.getLast?_eq_none_iff.mp hg) hne
  · intro hnil
    rw [GetLocalIP, scanLocalIP_eq, hnil]
    rfl

/-- Witness for C5 (spec scenario C): with interfaces
`[127.0.0.1 (loopback), 10.0.0.5, 192.168.1.20]` the resolver picks
`192.168.1.20` through the 192-preference branch. -/
theorem getLocalIP_prefers_192_else_last_witness :
    GetLocalIP [⟨true, true, some ⟨127, 0, 0, 1⟩⟩, ⟨true, false, some ⟨10, 0, 0, 5⟩⟩,
        ⟨true, false, some ⟨192, 168, 1, 20⟩⟩] = some ⟨192, 168, 1, 20⟩ := by
  have h := (getLocalIP_prefers_192_else_last
    [⟨true, true, some ⟨127, 0, 0, 1⟩⟩, ⟨true, false, some ⟨10, 0, 0, 5⟩⟩,
      ⟨true, false, some ⟨192, 168, 1, 20⟩⟩]).1 (by decide)
  exact h.trans (by decide)

/-! ## File/playlist projection (`torrentserver`, src/unnamed/part_001 and part_002) -/

/-- One file of a resolved torrent as the engine presents it: its
`DisplayPath()` and its `Length()` (an `int64`). -/
structure TFile where
  displayPath : String
  length : Int
deriving DecidableEq, Repr

/-- The `FileInfo` struct of the `torrentserver` package (part_001 lines
192–198). -/
structure FileInfo where
  Name : String
  URL : String
  Length : Int
  MimeType : String
  depth : Nat
deriving DecidableEq, Repr

/-- `BuildUrl` (part_002 lines 81–83): `fmt.Sprintf` of the stream URL. -/
def BuildUrl (localIP : IPv4) (Port : Nat) (ihHex displayPath : String) : String :=
  "http://" ++ localIP.render ++ ":" ++ toString Port ++ "/torrents/" ++ ihHex ++ "/"
    ++ displayPath

/-- The `FileInfo` literal built for one file inside the loop of `WrapFiles`
(part_002 lines 164–172).  `mimeOf` stands for the external table
`mime.TypeByExtension`. -/
def wrapFile (mimeOf : String → String) (localIP : IPv4) (Port : Nat) (ihHex : String)
    (f : TFile) : FileInfo :=
  { Name := baseName f.displayPath
    URL := BuildUrl localIP Port ihHex f.displayPath
    Length := f.length
    MimeType := mimeOf (extOf f.displayPath)
    depth := depthOf f.displayPath }

/-- The `less` closure handed to `sort.Slice` in `WrapFiles` (part_002 lines
174–180): compare depths first, names second. -/
def lessFI (a b : FileInfo) : Bool :=
  if a.depth ≠ b.depth then decide (a.depth < b.depth)
  else strLtGo a.Name.toList b.Name.toList

/-- The non-strict order a slice sorted by `sort.Slice` with `lessFI` satisfies:
position `i` may precede position `j` exactly when `lessFI` does not order `j`
strictly before `i`. -/
def LeFI (a b : FileInfo) : Prop := lessFI b a = false

instance : DecidableRel LeFI := fun a b => by unfold LeFI; infer_instance

theorem lessFI_asymm {a b : FileInfo} (h : lessFI a b = true) : lessFI b a = false := by
  by_cases hd : a.depth = b.depth
  · rw [lessFI, if_neg (by simp [hd])] at h
    rw [lessFI, if_neg (by simp [hd])]
    exact strLtGo_asymm h
  · rw [lessFI, if_pos hd, decide_eq_true_eq] at h
    rw [lessFI, if_pos (fun e => hd e.symm), decide_eq_false_iff_not]
    exact Nat.lt_asymm h

theorem lessFI_trans {a b c : FileInfo} (h1 : lessFI a b = true) (h2 : lessFI b c = true) :
    lessFI a c = true := by
  by_cases hab : a.depth = b.depth <;> by_cases hbc : b.depth = c.depth
  · rw [lessFI, if_neg (by simp [hab])] at h1
    rw [lessFI, if_neg (by simp [hbc])] at h2
    rw [lessFI, if_neg (by simp [hab.trans hbc])]
    exact strLtGo_trans h1 h2
  · rw [lessFI, if_pos hbc, decide_eq_true_eq] at h2
    rw [lessFI, if_pos (fun e => hbc (hab.symm.trans e)), decide_eq_true_eq]
    exact hab.symm ▸ h2
  · rw [lessFI, if_pos hab, decide_eq_true_eq] at h1
    rw [lessFI, if_pos (fun e => hab (e.trans hbc.symm)), decide_eq_true_eq]
    exact hbc ▸ h1
  · rw [lessFI, if_pos hab, decide_eq_true_eq] at h1
    rw [lessFI, if_pos hbc, decide_eq_true_eq] at h2
    have hac : a.depth < c.depth := Nat.lt_trans h1 h2
    rw [lessFI, if_pos (Nat.ne_of_lt hac), decide_eq_true_eq]
    exact hac

theorem lessFI_congr {a b : FileInfo} (hd : a.depth = b.depth) (hn : a.Name = b.Name)
    (x : FileInfo) : lessFI a x = lessFI b x := by
  simp only [lessFI, hd, hn]

theorem lessFI_false_cases {b c : FileInfo} (h : lessFI c b = false) :
    lessFI b c = true ∨ (b.depth = c.depth ∧ b.Name = c.Name) := by
  by_cases hd : b.depth = c.depth
  · rw [lessFI, if_neg (by simp [hd])] at h
    cases hlt : strLtGo b.Name.toList c.Name.toList with
    | true =>
      refine Or.inl ?_
      rw [lessFI, if_neg (by simp [hd])]
      exact hlt
    | false => exact Or.inr ⟨hd, String.toList_inj.mp (strLtGo_eq_of_not_lt hlt h)⟩
  · have hcb : c.depth ≠ b.depth := fun e => hd e.symm
    rw [lessFI, if_pos hcb, decide_eq_false_iff_not, Nat.not_lt] at h
    refine Or.inl ?_
    rw [lessFI, if_pos hd, decide_eq_true_eq]
    exact Nat.lt_of_le_of_ne h hd

instance : IsTotal FileInfo LeFI :=
  ⟨fun a b => by
    unfold LeFI
    cases h : lessFI b a with
    | false => exact Or.inl rfl
    | true => exact Or.inr (lessFI_asymm h)⟩

instance : IsTrans FileInfo LeFI :=
  ⟨fun a b c h1 h2 => by
    unfold LeFI at h1 h2 ⊢
    cases hca : lessFI c a with
    | false => rfl
    | true =>
      exfalso
      rcases lessFI_false_cases h2 with hbc | ⟨hd, hn⟩
      · rw [lessFI_trans hbc hca] at h1
        exact Bool.noConfusion h1
      · rw [lessFI_congr hd hn a, hca] at h1
        exact Bool.noConfusion h1⟩

/-- The `sort.Slice(files, ...)` call of `WrapFiles`.  `sort.Slice` is an
unspecified comparison sort; we model it with insertion sort on the induced
non-strict order `LeFI`, which realises exactly the guarantee Go gives (the
output is a permutation that is sorted with respect to the comparator). -/
def sortFiles : List FileInfo → List FileInfo := List.insertionSort LeFI

/-- `WrapFiles` (part_002 lines 144–183): resolve a local IP (first non-loopback
IPv4 whose first octet is 192, else the `no local ip found` error), project each
engine file to a `FileInfo`, and sort by (depth, name). -/
def WrapFiles (mimeOf : String → String) (addrs : List IfaceAddr) (Port : Nat)
    (ihHex : String) (Files : List TFile) : Except String (List FileInfo) :=
  match (GetLocalIPs addrs).find? (fun ip => ip.o0 == 192) with
  | none => .error "error wrapping files: no local ip found"
  | some localIP => .ok (sortFiles (Files.map (wrapFile mimeOf localIP Port ihHex)))

/-- `strings.Join(lines, "\n")`. -/
def joinLines : List String → String
  | [] => ""
  | [l] => l
  | l :: ls => l ++ "\n" ++ joinLines ls

/-- The `#EXTINF` title line rendered for one file. -/
def extinf (name : String) : String := "#EXTINF:0," ++ name

/-- The loop of `BuildPlaylist` (part_002 lines 85–98): start from `#EXTM3U` and
append a title/URL pair for every file whose MIME type (looked up from the file
name's extension) starts with `"video"`. -/
def playlistLines (mimeOf : String → String) (files : List FileInfo) : List String :=
  files.foldl
    (fun playlist file =>
      if strHasPre "video" (mimeOf (extOf file.Name)) then
        playlist ++ [extinf file.Name, file.URL]
      else playlist)
    ["#EXTM3U"]

/-- `BuildPlaylist` (part_002 lines 85–98). -/
def BuildPlaylist (mimeOf : String → String) (files : List FileInfo) : String :=
  joinLines (playlistLines mimeOf files)

/-- C4: `WrapFiles` orders its resulting entries by the (depth, name) order:
the sorted output is `Sorted` for `LeFI`; `LeFI` is total and transitive; depth
comparison dominates (strictly smaller depth orders strictly earlier) and at
equal depth the name comparison decides; the sort leaves an already-sorted
sequence unchanged and is idempotent. -/
theorem wrapFiles_sorts_by_total_order (mimeOf : String → String) (addrs : List IfaceAddr)
    (Port : Nat) (ihHex : String) (Files : List TFile) (files l : List FileInfo)
    (a b c : FileInfo) :
    (WrapFiles mimeOf addrs Port ihHex Files = .ok files → files.Sorted LeFI) ∧
    (LeFI a b ∨ LeFI b a) ∧
    (LeFI a b → LeFI b c → LeFI a c) ∧
    (a.depth < b.depth → LeFI a b ∧ ¬LeFI b a) ∧
    (a.depth = b.depth → (LeFI a b ↔ strLtGo b.Name.toList a.Name.toList = false)) ∧
    (l.Sorted LeFI → sortFiles l = l) ∧
    (sortFiles (sortFiles l) = sortFiles l) := by
  refine ⟨?_, total_of LeFI a b, fun h1 h2 => IsTrans.trans a b c h1 h2, ?_, ?_,
    fun hs => List.Sorted.insertionSort_eq hs,
    List.Sorted.insertionSort_eq (List.sorted_insertionSort LeFI l)⟩
  · intro h
    cases hfind : (GetLocalIPs addrs).find? (fun ip => ip.o0 == 192) with
    | none => rw [WrapFiles, hfind] at h; exact Except.noConfusion h
    | some ip =>
      rw [WrapFiles, hfind] at h
      have : sortFiles (Files.map (wrapFile mimeOf ip Port ihHex)) = files :=
        Except.ok.inj h
      exact this ▸ List.sorted_insertionSort LeFI _
  · intro hlt
    have hne : a.depth ≠ b.depth := Nat.ne_of_lt hlt
    constructor
    · show lessFI b a = false
      rw [lessFI, if_pos (fun e => hne e.symm), decide_eq_false_iff_not]
      exact Nat.lt_asymm hlt
    · show ¬lessFI a b = false
      rw [lessFI, if_pos hne]
      simp [hlt]
  · intro hd
    show lessFI b a = false ↔ _
    rw [lessFI, if_neg (by simp [hd])]

/-- Witness for C4 at concrete entries: a depth-1 entry orders strictly before a
depth-2 entry, and sorting an already-sorted two-entry list leaves it unchanged. -/
theorem wrapFiles_sorts_by_total_order_witness :
    (LeFI ⟨"a.mkv", "u1", 10, "video/x-matroska", 1⟩
        ⟨"b.mkv", "u2", 20, "video/x-matroska", 2⟩ ∧
      ¬LeFI ⟨"b.mkv", "u2", 20, "video/x-matroska", 2⟩
        ⟨"a.mkv", "u1", 10, "video/x-matroska", 1⟩) ∧
    sortFiles [⟨"a.mkv", "u1", 10, "video/x-matroska", 1⟩,
        ⟨"b.mkv", "u2", 20, "video/x-matroska", 2⟩]
      = [⟨"a.mkv", "u1", 10, "video/x-matroska", 1⟩,
        ⟨"b.mkv", "u2", 20, "video/x-matroska", 2⟩] := by
  have h := wrapFiles_sorts_by_total_order (fun _ => "") [] 0 "" [] []
    [⟨"a.mkv", "u1", 10, "video/x-matroska", 1⟩, ⟨"b.mkv", "u2", 20, "video/x-matroska", 2⟩]
    ⟨"a.mkv", "u1", 10, "video/x-matroska", 1⟩ ⟨"b.mkv", "u2", 20, "video/x-matroska", 2⟩
    ⟨"a.mkv", "u1", 10, "video/x-matroska", 1⟩
  exact ⟨h.2.2.2.1 (by decide), h.2.2.2.2.2.1 (by decide)⟩

theorem playlistLines_eq (mimeOf : String → String) (files : List FileInfo) :
    playlistLines mimeOf files =
      "#EXTM3U" ::
        (files.filter (fun f => strHasPre "video" (mimeOf (extOf f.Name)))).flatMap
          (fun f => [extinf f.Name, f.URL]) := by
  have key : ∀ (fs : List FileInfo) (acc : List String),
      fs.foldl
          (fun playlist file =>
            if strHasPre "video" (mimeOf (extOf file.Name)) then
              playlist ++ [extinf file.Name, file.URL]
            else playlist)
          acc
        = acc ++ (fs.filter (fun f => strHasPre "video" (mimeOf (extOf f.Name)))).flatMap
            (fun f => [extinf f.Name, f.URL]) := by
    intro fs
    induction fs with
    | nil => intro acc; simp
    | cons f rest ih =>
      intro acc
      cases hv : strHasPre "video" (mimeOf (extOf f.Name)) with
      | true => simp [hv, ih, List.filter_cons]
      | false => simp [hv, ih, List.filter_cons]
  simpa [playlistLines] using key files ["#EXTM3U"]

/-- C3: for a resolved torrent all of whose files have video MIME types, the
playlist document is `#EXTM3U` followed by exactly one `#EXTINF`/URL pair per
file, in the order of the projected entries, which are sorted by ascending
depth then ascending name. -/
theorem buildPlaylist_all_video (mimeOf : String → String) (addrs : List IfaceAddr)
    (Port : Nat) (ihHex : String) (Files : List TFile) (files : List FileInfo)
    (hok : WrapFiles mimeOf addrs Port ihHex Files = .ok files)
    (hvid : ∀ f ∈ Files, strHasPre "video" (mimeOf (extOf f.displayPath)) = true) :
    BuildPlaylist mimeOf files =
      joinLines ("#EXTM3U" :: files.flatMap (fun f => [extinf f.Name, f.URL])) ∧
    files.Sorted LeFI ∧
    files.length = Files.length := by
  cases hfind : (GetLocalIPs addrs).find? (fun ip => ip.o0 == 192) with
  | none => rw [WrapFiles, hfind] at hok; exact Except.noConfusion hok
  | some ip =>
    rw [WrapFiles, hfind] at hok
    have hfiles : sortFiles (Files.map (wrapFile mimeOf ip Port ihHex)) = files :=
      Except.ok.inj hok
    have hmem : ∀ f ∈ files, strHasPre "video" (mimeOf (extOf f.Name)) = true := by
      intro f hf
      rw [← hfiles] at hf
      have hf2 : f ∈ Files.map (wrapFile mimeOf ip Port ihHex) :=
        (List.perm_insertionSort LeFI _).subset hf
      obtain ⟨g, hg, rfl⟩ := List.mem_map.mp hf2
      show strHasPre "video" (mimeOf (extOf (baseName g.displayPath))) = true
      rw [extOf_baseName]
      exact hvid g hg
    refine ⟨?_, ?_, ?_⟩
    · rw [BuildPlaylist, playlistLines_eq, List.filter_eq_self.mpr hmem]
    · exact hfiles ▸ List.sorted_insertionSort LeFI _
    · rw [← hfiles, sortFiles, (List.perm_insertionSort LeFI _).length_eq,
        List.length_map]

/-- Witness for C3: a one-video-file torrent projected with a 192.168.1.2 local
address yields the `#EXTM3U` document with that file's single pair. -/
theorem buildPlaylist_all_video_witness :
    BuildPlaylist (fun _ => "video/x-matroska")
        [wrapFile (fun _ => "video/x-matroska") ⟨192, 168, 1, 2⟩ 1 "ih" ⟨"a.mkv", 4⟩]
      = joinLines ("#EXTM3U" ::
          ([wrapFile (fun _ => "video/x-matroska") ⟨192, 168, 1, 2⟩ 1 "ih"
              ⟨"a.mkv", 4⟩] : List FileInfo).flatMap (fun f => [extinf f.Name, f.URL])) := by
  have h := buildPlaylist_all_video (fun _ => "video/x-matroska")
    [⟨true, false, some ⟨192, 168, 1, 2⟩⟩] 1 "ih" [⟨"a.mkv", 4⟩]
    [wrapFile (fun _ => "video/x-matroska") ⟨192, 168, 1, 2⟩ 1 "ih" ⟨"a.mkv", 4⟩]
    rfl
    (by
      intro f hf
      rw [List.mem_singleton.mp hf]
      rfl)
  exact h.1

/-! ## Torrent projection (`WrapTorrent`) -/

/-- A resolved torrent session as the engine presents it: display name,
info-hash (hex), and files. -/
structure STorrent where
  name : String
  infoHash : String
  files : List TFile
deriving DecidableEq, Repr

/-- The `TorrentInfo` struct of the `torrentserver` package (part_001 lines
184–190). -/
structure TorrentInfo where
  Name : String
  InfoHash : String
  Files : List FileInfo
  Length : Int
  Playlist : String
deriving DecidableEq, Repr

/-- `WrapTorrent` (part_002 lines 121–142): project the files, accumulate
`torrentLength` over them, build the playlist, and assemble the record. -/
def WrapTorrent (mimeOf : String → String) (addrs : List IfaceAddr) (Port : Nat)
    (t : STorrent) : Except String TorrentInfo :=
  match WrapFiles mimeOf addrs Port t.infoHash t.files with
  | .error e => .error e
  | .ok files =>
    .ok { Name := t.name
          InfoHash := t.infoHash
          Files := files
          Length := files.foldl (fun acc f => acc + f.Length) 0
          Playlist := BuildPlaylist mimeOf files }

theorem foldl_add_lengths : ∀ (fs : List FileInfo) (acc : Int),
    fs.foldl (fun a f => a + f.Length) acc = acc + (fs.map FileInfo.Length).sum
  | [], acc => by simp
  | f :: rest, acc => by
    rw [List.foldl_cons, foldl_add_lengths rest, List.map_cons, List.sum_cons]
    omega

/-- C10: the `Length` field of the `TorrentInfo` returned by `WrapTorrent`
equals the sum of the `Length` fields of its `Files` entries. -/
theorem wrapTorrent_length_eq_sum (mimeOf : String → String) (addrs : List IfaceAddr)
    (Port : Nat) (t : STorrent) (info : TorrentInfo)
    (h : WrapTorrent mimeOf addrs Port t = .ok info) :
    info.Length = (info.Files.map FileInfo.Length).sum := by
  cases hw : WrapFiles mimeOf addrs Port t.infoHash t.files with
  | error e => rw [WrapTorrent, hw] at h; exact Except.noConfusion h
  | ok files =>
    rw [WrapTorrent, hw] at h
    obtain rfl := Except.ok.inj h
    simpa using foldl_add_lengths files 0

/-- Witness for C10 at a two-file torrent: the projected lengths 4 and 6 sum to
the reported total 10. -/
theorem wrapTorrent_length_eq_sum_witness :
    ((sortFiles [wrapFile (fun _ => "") ⟨192, 168, 1, 2⟩ 1 "ih" ⟨"a.mkv", 4⟩,
        wrapFile (fun _ => "") ⟨192, 168, 1, 2⟩ 1 "ih" ⟨"b.mkv", 6⟩]).map
          FileInfo.Length).sum = 10 := by
  have h := wrapTorrent_length_eq_sum (fun _ => "") [⟨true, false, some ⟨192, 168, 1, 2⟩⟩] 1
    ⟨"t", "ih", [⟨"a.mkv", 4⟩, ⟨"b.mkv", 6⟩]⟩
    ⟨"t", "ih",
      sortFiles [wrapFile (fun _ => "") ⟨192, 168, 1, 2⟩ 1 "ih" ⟨"a.mkv", 4⟩,
        wrapFile (fun _ => "") ⟨192, 168, 1, 2⟩ 1 "ih" ⟨"b.mkv", 6⟩],
      10,
      BuildPlaylist (fun _ => "")
        (sortFiles [wrapFile (fun _ => "") ⟨192, 168, 1, 2⟩ 1 "ih" ⟨"a.mkv", 4⟩,
          wrapFile (fun _ => "") ⟨192, 168, 1, 2⟩ 1 "ih" ⟨"b.mkv", 6⟩])⟩ rfl
  exact h.symm

/-! ## The `main.go` revisions of the projection (claim C6)

Both historical revisions in `src/main.go` obtain the candidate list from
`GetLocalIPs` — which reports an empty slice together with a nil error when no
non-loopback IPv4 address exists — and then index `ips[0]` without a bounds
check, so on such a host they crash with an index-out-of-range runtime panic
instead of failing with a `NoLocalAddressFound` error. -/

/-- Outcome of a `main.go`-revision projection call: a value, a returned error,
or a runtime panic. -/
inductive MainOutcome (α : Type) where
  | ok (val : α)
  | err (msg : String)
  | panicked (msg : String)
deriving DecidableEq, Repr

/-- `BuildPlaylist` from the first revision in `src/main.go` (lines 113–133).
`ifaceErr` models a failure of `net.InterfaceAddrs`; `localIP := ips[0]` on an
empty candidate slice is the panic. -/
def BuildPlaylistMain (addrs : List IfaceAddr) (ifaceErr : Bool)
    (mimeOf : String → String) (Port : Nat) (t : STorrent) : MainOutcome String :=
  if ifaceErr then .err "failed to get local interface addresses"
  else
    match GetLocalIPs addrs with
    | [] => .panicked "index out of range"
    | localIP :: _ =>
      .ok (joinLines (t.files.foldl
        (fun playlist f =>
          if strHasPre "video" (mimeOf (extOf f.displayPath)) then
            playlist ++ [extinf (baseName f.displayPath),
              BuildUrl localIP Port t.infoHash f.displayPath]
          else playlist)
        ["#EXTM3U"]))

/-- The `FileInfo` struct of the second revision in `src/main.go` (lines
330–334). -/
structure FileInfoM where
  Name : String
  URL : String
  Length : Int
deriving DecidableEq, Repr

/-- The `TorrentInfo` struct of the second revision in `src/main.go` (lines
324–328). -/
structure TorrentInfoM where
  Name : String
  InfoHash : String
  Files : List FileInfoM
deriving DecidableEq, Repr

/-- The `less` closure of the `sort.Slice` call in the second-revision
`WrapTorrent` (sorts by name only). -/
def lessNameM (a b : FileInfoM) : Bool := strLtGo a.Name.toList b.Name.toList

/-- The non-strict order induced by `lessNameM`. -/
def LeNameM (a b : FileInfoM) : Prop := lessNameM b a = false

instance : DecidableRel LeNameM := fun a b => by unfold LeNameM; infer_instance

/-- `WrapTorrent` from the second revision in `src/main.go` (lines 383–410),
with the unguarded `localIP := ips[0]`. -/
def WrapTorrentMain (addrs : List IfaceAddr) (ifaceErr : Bool) (Port : Nat)
    (t : STorrent) : MainOutcome TorrentInfoM :=
  if ifaceErr then .err "error getting local interface addresses"
  else
    match GetLocalIPs addrs with
    | [] => .panicked "index out of range"
    | localIP :: _ =>
      .ok { Name := t.name
            InfoHash := t.infoHash
            Files := List.insertionSort LeNameM (t.files.map fun f =>
              { Name := baseName f.displayPath
                URL := BuildUrl localIP Port t.infoHash f.displayPath
                Length := f.length }) }

/-- C6 (code bug): on a host whose only interface address is the loopback
address — so no non-loopback IPv4 address exists — `GetLocalIPs` returns an
empty candidate list with a nil error, and both `main.go` projections then panic
at `ips[0]` instead of failing with a `NoLocalAddressFound` error as the
specification requires. -/
theorem localIP_empty_causes_panic :
    GetLocalIPs [⟨true, true, some ⟨127, 0, 0, 1⟩⟩] = [] ∧
    BuildPlaylistMain [⟨true, true, some ⟨127, 0, 0, 1⟩⟩] false (fun _ => "") 6969
        ⟨"t", "ih", [⟨"a.mkv", 4⟩]⟩ = .panicked "index out of range" ∧
    WrapTorrentMain [⟨true, true, some ⟨127, 0, 0, 1⟩⟩] false 6969
        ⟨"t", "ih", [⟨"a.mkv", 4⟩]⟩ = .panicked "index out of range" :=
  ⟨rfl, rfl, rfl⟩

/-! ## `GET /torrents` (claim C7)

Two revisions exist.  The sorted-array handler
(`src/unnamed/part_005` lines 20–37 / `src/unnamed/part_006` lines 16–31)
calls `MarshalTorrents`
(part_001 lines 239–256 / part_002 lines 100–119), which performs a bare
`<-t.GotInfo()` per session — it never consults the request context, so a
session whose metadata never resolves blocks the handler forever.  The earlier
revision (`src/handlers.go` lines 17–35) bounds the wait with a
`select` on `r.Context().Done()` and answers 408, but returns a JSON object
mapping info-hash to name, not the sorted array. -/

/-- A session as a `GET /torrents` handler sees it: name, info-hash, whether the
metadata-readiness channel `GotInfo` has been closed, and the files available
once resolved. -/
structure GSession where
  name : String
  infoHash : String
  gotInfo : Bool
  files : List TFile
deriving DecidableEq, Repr

/-- Outcome of the canonical handler: a marshalled torrent list, an error
status, or an unbounded block on an unresolved session's `GotInfo`. -/
inductive ArrOutcome where
  | ok (torrents : List TorrentInfo)
  | err (status : Nat)
  | blocked
deriving DecidableEq, Repr

/-- The per-torrent loop of `MarshalTorrents`: `<-t.GotInfo()` (blocking
without any context bound), then `WrapTorrent`; a `WrapTorrent` error makes the
handler reply 500. -/
def marshalLoop (mimeOf : String → String) (addrs : List IfaceAddr) (Port : Nat) :
    List GSession → ArrOutcome
  | [] => .ok []
  | t :: rest =>
    if t.gotInfo then
      match WrapTorrent mimeOf addrs Port ⟨t.name, t.infoHash, t.files⟩ with
      | .error _ => .err 500
      | .ok info =>
        match marshalLoop mimeOf addrs Port rest with
        | .ok infos => .ok (info :: infos)
        | o => o
    else .blocked

/-- The `less` closure of the `sort.Slice` over torrents in `MarshalTorrents`
(sort by `Name`). -/
def lessNameT (a b : TorrentInfo) : Bool := strLtGo a.Name.toList b.Name.toList

/-- The non-strict order induced by `lessNameT`. -/
def LeNameT (a b : TorrentInfo) : Prop := lessNameT b a = false

instance : DecidableRel LeNameT := fun a b => by unfold LeNameT; infer_instance

instance : IsTotal TorrentInfo LeNameT :=
  ⟨fun a b => by
    unfold LeNameT
    cases h : lessNameT b a with
    | false => exact Or.inl rfl
    | true => exact Or.inr (strLtGo_asymm h)⟩

instance : IsTrans TorrentInfo LeNameT :=
  ⟨fun a b c h1 h2 => by
    unfold LeNameT lessNameT at h1 h2 ⊢
    cases hca : strLtGo c.Name.toList a.Name.toList with
    | false => rfl
    | true =>
      exfalso
      cases hbc : strLtGo b.Name.toList c.Name.toList with
      | true =>
        rw [strLtGo_trans hbc hca] at h1
        exact Bool.noConfusion h1
      | false =>
        rw [← strLtGo_eq_of_not_lt hbc h2] at hca
        rw [hca] at h1
        exact Bool.noConfusion h1⟩

/-- The sorted-array `HandleGetTorrents`
(`src/unnamed/part_005` lines 20–37 / `src/unnamed/part_006` lines 16–31):
marshal every session, sort by name, reply with the array.  `ctxCancelled` is accepted but — exactly
as in the code, which never reads `r.Context()` — ignored. -/
def HandleGetTorrentsCanon (mimeOf : String → String) (addrs : List IfaceAddr)
    (Port : Nat) (sessions : List GSession) (ctxCancelled : Bool) : ArrOutcome :=
  match marshalLoop mimeOf addrs Port sessions with
  | .ok infos => .ok (List.insertionSort LeNameT infos)
  | o => o

/-- Outcome of the `select`-based revision: a fingerprint-to-name map (as an
association list), an error status, or a block. -/
inductive MapOutcome where
  | ok (entries : List (String × String))
  | err (status : Nat)
  | blocked
deriving DecidableEq, Repr

/-- `HandleGetTorrents` from `src/handlers.go` lines 17–35: per session,
`select` between `GotInfo` and `r.Context().Done()`; cancellation yields a 408
error response.  When both channels are ready Go picks either branch; we take
the `GotInfo` branch, which only makes the cancellation property harder (the
handler returns in either resolution). -/
def HandleGetTorrentsSelect : List GSession → Bool → MapOutcome
  | [], _ => .ok []
  | t :: rest, ctxCancelled =>
    if t.gotInfo then
      match HandleGetTorrentsSelect rest ctxCancelled with
      | .ok m => .ok ((t.infoHash, t.name) :: m)
      | o => o
    else if ctxCancelled then .err 408 else .blocked

/-- C7, counterexample: the canonical handler — the one that returns the JSON
array sorted by name — does NOT bound its wait by the request's cancellation: a
cancelled request over one never-resolved session blocks instead of returning
an error response. -/
theorem getTorrents_wait_unbounded_counterexample :
    HandleGetTorrentsCanon (fun _ => "") [⟨true, false, some ⟨192, 168, 1, 2⟩⟩] 6969
        [⟨"t", "ih", false, []⟩] true = .blocked := rfl

theorem marshalLoop_blocked (mimeOf : String → String) (addrs : List IfaceAddr)
    (Port : Nat) (ip : IPv4)
    (hfind : (GetLocalIPs addrs).find? (fun i => i.o0 == 192) = some ip) :
    ∀ sessions : List GSession, (∃ t ∈ sessions, t.gotInfo = false) →
      marshalLoop mimeOf addrs Port sessions = .blocked := by
  intro sessions
  induction sessions with
  | nil => rintro ⟨t, ht, _⟩; cases ht
  | cons t rest ih =>
    rintro ⟨x, hx, hxg⟩
    cases hg : t.gotInfo with
    | false => rw [marshalLoop, if_neg (by simp [hg])]
    | true =>
      have hxrest : x ∈ rest := by
        rcases List.mem_cons.mp hx with rfl | h
        · rw [hg] at hxg; exact Bool.noConfusion hxg
        · exact h
      rw [marshalLoop, if_pos hg, WrapTorrent, WrapFiles, hfind, ih ⟨x, hxrest, hxg⟩]

/-- C7, amended: the revision in `src/handlers.go` bounds the wait by the
request's cancellation — with the context cancelled and some session never
resolved it returns the 408 error response — but on success returns an
info-hash-to-name object; the canonical revision returns the array sorted by
name on success, but its per-session wait ignores the request context and
blocks while any session is unresolved. -/
theorem getTorrents_cancellation_and_sorting (mimeOf : String → String)
    (addrs : List IfaceAddr) (Port : Nat) (sessions : List GSession)
    (ctxCancelled : Bool) (ip : IPv4) (infos : List TorrentInfo) :
    ((∃ t ∈ sessions, t.gotInfo = false) →
      HandleGetTorrentsSelect sessions true = .err 408) ∧
    ((GetLocalIPs addrs).find? (fun i => i.o0 == 192) = some ip →
      (∃ t ∈ sessions, t.gotInfo = false) →
      HandleGetTorrentsCanon mimeOf addrs Port sessions ctxCancelled = .blocked) ∧
    (HandleGetTorrentsCanon mimeOf addrs Port sessions ctxCancelled = .ok infos →
      infos.Sorted LeNameT) := by
  refine ⟨?_, ?_, ?_⟩
  · induction sessions with
    | nil => rintro ⟨t, ht, _⟩; cases ht
    | cons t rest ih =>
      rintro ⟨x, hx, hxg⟩
      cases hg : t.gotInfo with
      | false =>
        rw [HandleGetTorrentsSelect, if_neg (by simp [hg]), if_pos rfl]
      | true =>
        have hxrest : x ∈ rest := by
          rcases List.mem_cons.mp hx with rfl | h
          · rw [hg] at hxg; exact Bool.noConfusion hxg
          · exact h
        rw [HandleGetTorrentsSelect, if_pos hg, ih ⟨x, hxrest, hxg⟩]
  · intro hfind hex
    rw [HandleGetTorrentsCanon, marshalLoop_blocked mimeOf addrs Port ip hfind sessions hex]
  · intro h
    cases hm : marshalLoop mimeOf addrs Port sessions with
    | ok infos0 =>
      rw [HandleGetTorrentsCanon, hm] at h
      obtain rfl := ArrOutcome.ok.inj h
      exact List.sorted_insertionSort LeNameT infos0
    | err s => rw [HandleGetTorrentsCanon, hm] at h; exact ArrOutcome.noConfusion h
    | blocked => rw [HandleGetTorrentsCanon, hm] at h; exact ArrOutcome.noConfusion h

/-- Witness for C7 at one never-resolved session: the `select` revision answers
408 on a cancelled request, while the canonical revision blocks. -/
theorem getTorrents_cancellation_and_sorting_witness :
    HandleGetTorrentsSelect [⟨"t", "ih", false, []⟩] true = .err 408 ∧
    HandleGetTorrentsCanon (fun _ => "") [⟨true, false, some ⟨192, 168, 1, 20⟩⟩] 6969
        [⟨"t", "ih", false, []⟩] false = .blocked := by
  have h := getTorrents_cancellation_and_sorting (fun _ => "")
    [⟨true, false, some ⟨192, 168, 1, 20⟩⟩] 6969 [⟨"t", "ih", false, []⟩] false
    ⟨192, 168, 1, 20⟩ []
  exact ⟨h.1 ⟨⟨"t", "ih", false, []⟩, by simp, rfl⟩,
    h.2.1 rfl ⟨⟨"t", "ih", false, []⟩, by simp, rfl⟩⟩

/-! ## `DELETE /torrents/{fingerprint}` (claims C2 and C8)

The delete endpoint the spec describes —
`DELETE /torrents/{fingerprint}?deleteFiles=true|false` with best-effort
cleanup — is not among the revisions under `src/`: the nearest in-src revision
(`src/unnamed/part_005` lines 98–146) gates the identical cleanup steps on the
`DeleteDataOnTorrentDrop` configuration flag instead of the query flag, and the
earlier revisions (`src/unnamed/part_006`, `src/handlers.go`) drop the session
without any cleanup.  The handler below is therefore modelled from the spec
(sections 4.5, 5, 6 and 7), taking the shapes of the lookup, the deferred
drop, the 204-before-cleanup ordering, the piece-delete transaction and the
descriptor removal from part_005.  The piece cache is the set of keys present
in the store; the torrents directory is the list of file names present under
`<DownloadDir>/torrents`. -/

/-- A session as the delete handler sees it: its fingerprint, display name,
and the V1 hash hex string of every piece. -/
structure DSession where
  infoHash : String
  name : String
  pieceHashes : List String
deriving DecidableEq, Repr

/-- The state the delete handler reads and writes: the engine's session table,
the piece-cache keys, and the saved descriptor files. -/
structure ServerState where
  sessions : List DSession
  cache : List String
  torrentFiles : List String
deriving DecidableEq, Repr

/-- A failure of one of the best-effort cleanup steps: opening the cache
database (part_005 lines 118–122), a hard (non-`ErrNotFound`) failure inside
the delete transaction — which per spec section 5 rolls the transaction back
as a unit (part_005 lines 125–139) — or a hard (non-`IsNotExist`) failure of
`os.Remove` (part_005 lines 141–144). -/
inductive CleanupFault where
  | dbOpen
  | txHard
  | fileRemove
deriving DecidableEq, Repr

/-- What the handler produced: the HTTP status plus the post-state.  The
session removal (`t.Drop()`) sits in a `defer` (part_005 lines 106–109), so it
happens on every path past the lookup. -/
structure DeleteResult where
  status : Nat
  sessions : List DSession
  cache : List String
  torrentFiles : List String
deriving DecidableEq, Repr

/-- Modelled from the spec: the query-flag-gated delete handler of sections
4.5/6 (`DELETE /torrents/{fingerprint}?deleteFiles=true|false`) is missing
from `src/`; the in-src revision `src/unnamed/part_005` lines 98–146 performs
the same steps gated on a configuration flag.  Behaviour per the spec's words:
404 on an unknown fingerprint; otherwise 204 is written before any cleanup and
the deferred drop removes the session; when the query flag requesting data
deletion is set, every piece's cached content is removed from the piece store
— inside one transaction, tolerating "not found" as success and rolling back
as a unit on hard failure — and the saved descriptor `<name>.torrent` is
removed, tolerating "does not exist"; cleanup failures are logged only and the
response stays 204.  `fault` injects a failure of one cleanup step. -/
def HandleDeleteInfoHash (st : ServerState) (ih : String) (deleteFilesQ : String)
    (fault : Option CleanupFault) : DeleteResult :=
  match st.sessions.find? (fun s => s.infoHash == ih) with
  | none => ⟨404, st.sessions, st.cache, st.torrentFiles⟩
  | some t =>
    let sessions' := st.sessions.filter (fun s => !(s.infoHash == ih))
    if deleteFilesQ ≠ "true" then ⟨204, sessions', st.cache, st.torrentFiles⟩
    else if fault = some .dbOpen then ⟨204, sessions', st.cache, st.torrentFiles⟩
    else
      let cache' := if fault = some .txHard then st.cache
        else st.cache.filter (fun k => !t.pieceHashes.contains k)
      let files' := if fault = some .fileRemove then st.torrentFiles
        else st.torrentFiles.erase (t.name ++ ".torrent")
      ⟨204, sessions', cache', files'⟩

/-- C8: an unknown fingerprint yields 404 and removes no session; a known
fingerprint yields 204 with the session removed from the engine, for every
combination of the optional-cleanup failures and of the `DeleteFiles` flag. -/
theorem handleDelete_status_and_session (st : ServerState) (ih deleteFilesQ : String)
    (fault : Option CleanupFault) :
    (st.sessions.find? (fun s => s.infoHash == ih) = none →
      (HandleDeleteInfoHash st ih deleteFilesQ fault).status = 404 ∧
      (HandleDeleteInfoHash st ih deleteFilesQ fault).sessions = st.sessions ∧
      (HandleDeleteInfoHash st ih deleteFilesQ fault).cache = st.cache ∧
      (HandleDeleteInfoHash st ih deleteFilesQ fault).torrentFiles = st.torrentFiles) ∧
    (∀ t, st.sessions.find? (fun s => s.infoHash == ih) = some t →
      (HandleDeleteInfoHash st ih deleteFilesQ fault).status = 204 ∧
      (HandleDeleteInfoHash st ih deleteFilesQ fault).sessions =
        st.sessions.filter (fun s => !(s.infoHash == ih))) := by
  constructor
  · intro hfind
    simp only [HandleDeleteInfoHash, hfind]
    refine ⟨?_, ?_, ?_, ?_⟩ <;> trivial
  · intro t hfind
    simp only [HandleDeleteInfoHash, hfind]
    by_cases hq : deleteFilesQ ≠ "true"
    · rw [if_pos hq]; exact ⟨rfl, rfl⟩
    · rw [if_neg hq]
      cases fault with
      | none => exact ⟨rfl, rfl⟩
      | some c => cases c <;> exact ⟨rfl, rfl⟩

/-- Witness for C8: a concrete unknown fingerprint gives 404 with the state
untouched, and a concrete known one gives 204 with exactly that session gone. -/
theorem handleDelete_status_and_session_witness :
    (HandleDeleteInfoHash ⟨[⟨"aa", "n", ["h1"]⟩], ["h1"], ["n.torrent"]⟩ "bb" "true"
        none).status = 404 ∧
    (HandleDeleteInfoHash ⟨[⟨"aa", "n", ["h1"]⟩], ["h1"], ["n.torrent"]⟩ "aa" "false"
        none).status = 204 ∧
    (HandleDeleteInfoHash ⟨[⟨"aa", "n", ["h1"]⟩], ["h1"], ["n.torrent"]⟩ "aa" "false"
        none).sessions = [] := by
  have h1 := (handleDelete_status_and_session ⟨[⟨"aa", "n", ["h1"]⟩], ["h1"], ["n.torrent"]⟩
    "bb" "true" none).1 (by decide)
  have h2 := (handleDelete_status_and_session ⟨[⟨"aa", "n", ["h1"]⟩], ["h1"], ["n.torrent"]⟩
    "aa" "false" none).2 ⟨"aa", "n", ["h1"]⟩ (by decide)
  exact ⟨h1.1, h2.1, h2.2.trans (by decide)⟩

/-- An HTTP response as the handler writes it: status, `Content-Type` header,
body. -/
structure HttpResponse where
  status : Nat
  contentType : String
  body : String
deriving DecidableEq, Repr

/-- `os.Create` of `saveTorrentFile` (`src/main.go` lines 174–192): (re)create `<name>.torrent` in the
torrents directory. -/
def insertFile (files : List String) (name : String) : List String :=
  if files.contains name then files else files ++ [name]

/-- `HandlePostTorrents` (`src/unnamed/part_005` lines 39–74; same shape in
`src/unnamed/part_006` lines 34–69).  `readBody` models `io.ReadAll(r.Body)`;
`engine` models `AddTorrent` followed by `<-t.GotInfo()` (the resolved session
it yields); `saveFails` injects an I/O failure of `saveTorrentFile`, whose error
the handler only logs — the response has been written beforehand.  The result
pairs the response with the torrents directory afterwards. -/
def HandlePostTorrents (mimeOf : String → String) (addrs : List IfaceAddr) (Port : Nat)
    (readBody : Except String String) (engine : String → Except String STorrent)
    (resumeTorrents saveFails : Bool) (torrentsDir : List String) :
    HttpResponse × List String :=
  match readBody with
  | .error _ => (⟨400, "text/plain", "Bad request"⟩, torrentsDir)
  | .ok body =>
    match engine body with
    | .error e => (⟨400, "text/plain", "Error adding torrent: " ++ e⟩, torrentsDir)
    | .ok t =>
      match WrapFiles mimeOf addrs Port t.infoHash t.files with
      | .error e => (⟨500, "text/plain", "Error building playlist: " ++ e⟩, torrentsDir)
      | .ok files =>
        let resp : HttpResponse :=
          ⟨200, "application/vnd.apple.mpegurl", BuildPlaylist mimeOf files⟩
        if !resumeTorrents then (resp, torrentsDir)
        else if saveFails then (resp, torrentsDir)
        else (resp, insertFile torrentsDir (t.name ++ ".torrent"))

/-- C9: once the torrent was added and its playlist built, a failure while
saving the descriptor file never changes the HTTP response — the caller always
receives the playlist body with the media-playlist content type, whether or not
the save succeeded (only the on-disk torrents directory differs). -/
theorem postTorrents_save_failure_not_surfaced (mimeOf : String → String)
    (addrs : List IfaceAddr) (Port : Nat) (readBody : Except String String)
    (engine : String → Except String STorrent) (resumeTorrents : Bool)
    (torrentsDir : List String) (body : String) (t : STorrent)
    (files : List FileInfo)
    (hbody : readBody = .ok body) (hadd : engine body = .ok t)
    (hwrap : WrapFiles mimeOf addrs Port t.infoHash t.files = .ok files) :
    ∀ saveFails : Bool,
      (HandlePostTorrents mimeOf addrs Port readBody engine resumeTorrents saveFails
          torrentsDir).fst
        = ⟨200, "application/vnd.apple.mpegurl", BuildPlaylist mimeOf files⟩ := by
  intro saveFails
  subst hbody
  simp only [HandlePostTorrents, hadd, hwrap]
  cases resumeTorrents <;> cases saveFails <;> rfl

/-- Witness for C9: for a concrete added torrent, the response is the same
playlist response when the descriptor save fails as when it succeeds. -/
theorem postTorrents_save_failure_not_surfaced_witness :
    (HandlePostTorrents (fun _ => "") [⟨true, false, some ⟨192, 168, 1, 2⟩⟩] 1
        (.ok "magnet:x") (fun _ => .ok ⟨"t", "ih", []⟩) true true []).fst
      = ⟨200, "application/vnd.apple.mpegurl", BuildPlaylist (fun _ => "") []⟩ ∧
    (HandlePostTorrents (fun _ => "") [⟨true, false, some ⟨192, 168, 1, 2⟩⟩] 1
        (.ok "magnet:x") (fun _ => .ok ⟨"t", "ih", []⟩) true false []).fst
      = ⟨200, "application/vnd.apple.mpegurl", BuildPlaylist (fun _ => "") []⟩ := by
  constructor <;>
    exact postTorrents_save_failure_not_surfaced (fun _ => "")
      [⟨true, false, some ⟨192, 168, 1, 2⟩⟩] 1 (.ok "magnet:x")
      (fun _ => .ok ⟨"t", "ih", []⟩) true [] "magnet:x" ⟨"t", "ih", []⟩ [] rfl rfl rfl _

end GoTorrentMpv
